import Mathlib

/-!
Shallow embedding of the interactive selection state machine of `tfz`
(`src/main.go`): the fuzzy matcher, the label wrapper, the target toggle
logic, the filter/cursor/viewport bookkeeping, the two-step wizard update
function, and the final argument-list assembly.

Go strings are modelled as `List Char` (one entry per rune).  Where the Go
code indexes a string by *byte* (the fuzzy matcher's `text[ti]`), the UTF-8
byte sequence of the string is computed explicitly with `utf8EncodeChar`.
Go `int` values that can go negative (widths, heights, viewport offsets,
cursor deltas) are modelled as `Int`; values that are always list indices
or lengths are modelled as `Nat`.
-/

namespace Tfz

/-- UTF-8 encoding of a single code point, as a list of byte values.
Used to model Go's byte-level string indexing. -/
def utf8EncodeChar (c : Char) : List Nat :=
  let n := c.toNat
  if n < 0x80 then [n]
  else if n < 0x800 then
    [0xC0 ||| (n >>> 6), 0x80 ||| (n &&& 0x3F)]
  else if n < 0x10000 then
    [0xE0 ||| (n >>> 12), 0x80 ||| ((n >>> 6) &&& 0x3F), 0x80 ||| (n &&& 0x3F)]
  else
    [0xF0 ||| (n >>> 18), 0x80 ||| ((n >>> 12) &&& 0x3F),
     0x80 ||| ((n >>> 6) &&& 0x3F), 0x80 ||| (n &&& 0x3F)]

/-- The byte sequence of a Go string (`[]byte(s)`). -/
def goBytes (s : List Char) : List Nat :=
  (s.map utf8EncodeChar).flatten

/-- Models `strings.ToLower` on the ASCII range (the only range the claims
exercise); other code points are returned unchanged. -/
def goToLower (c : Char) : Char :=
  if 'A' ≤ c ∧ c ≤ 'Z' then Char.ofNat (c.toNat + 32) else c

/-- The inner loop of `fuzzyMatch` (src/main.go:564-571): advance through
`l` until an element equal to `r` is found; return the remainder after the
match, or `none` when `l` is exhausted. -/
def scanFor {α : Type} [DecidableEq α] : List α → α → Option (List α)
  | [], _ => none
  | b :: rest, r => if b = r then some rest else scanFor rest r

/-- The query loop of `fuzzyMatch` (src/main.go:562-575): each query rune
`r` is compared (as a code point) against successive *bytes* of the text,
exactly as Go's `rune(text[ti]) == r` does. -/
def fuzzyMatchBytes : List Nat → List Char → Bool
  | _, [] => true
  | bytes, r :: qs =>
    match scanFor bytes r.toNat with
    | none => false
    | some rest => fuzzyMatchBytes rest qs

/-- `fuzzyMatch` (src/main.go:557-577). -/
def fuzzyMatch (text query : List Char) : Bool :=
  if query.isEmpty then true
  else fuzzyMatchBytes (goBytes text) query

/-- Generic greedy ordered-subsequence matcher over one element type; the
spec-side description of `fuzzyMatch` ("characters of q appear in t in the
same relative order"). -/
def subMatch {α : Type} [DecidableEq α] : List α → List α → Bool
  | _, [] => true
  | t, r :: qs =>
    match scanFor t r with
    | none => false
    | some rest => subMatch rest qs

/-- Models `strings.Split(text, "\n")`: split into sub-lines at every
newline, keeping empty sub-lines. -/
def splitOnNl : List Char → List (List Char)
  | [] => [[]]
  | c :: rest =>
    if c = '\n' then [] :: splitOnNl rest
    else
      match splitOnNl rest with
      | [] => [[c]]
      | h :: t => (c :: h) :: t

/-- One iteration step of the chunking loop of `wrapLines`
(src/main.go:592-603), with an explicit fuel counter so the recursion is
structural (and hence kernel-computable).  The `0 < width` conjunct and the
fuel are termination artifacts only: the Go loop runs with `width > 0`, and
`wrapOne` below supplies fuel `line.length`, which the loop can never
exhaust since each iteration removes `width ≥ 1` runes. -/
def wrapOneFuel (width : Nat) : Nat → List Char → List (List Char)
  | 0, line => [line]
  | fuel + 1, line =>
    if width < line.length ∧ 0 < width then
      line.take width :: wrapOneFuel width fuel (line.drop width)
    else [line]

/-- The chunking loop of `wrapLines` (src/main.go:592-603) applied to one
sub-line: greedily slice off `width`-rune chunks while the line is longer
than `width`. -/
def wrapOne (width : Nat) (line : List Char) : List (List Char) :=
  wrapOneFuel width line.length line

/-- `wrapLines` (src/main.go:586-605).  `width <= 0` returns the sub-lines
unwrapped; note `wrapOne w [] = [[]]`, matching the `line == ""` branch. -/
def wrapLines (text : List Char) (width : Int) : List (List Char) :=
  if width ≤ 0 then splitOnNl text
  else (splitOnNl text).flatMap (wrapOne width.toNat)

/-- `targetItem` (src/main.go:25-28). -/
structure TargetItem where
  label : List Char
  selected : Bool
deriving DecidableEq

/-- Read `targets[i].Selected`, defaulting to `false` out of range. -/
def selAt (ts : List TargetItem) (i : Nat) : Bool :=
  ((ts.getD i ⟨[], false⟩).selected)

/-- Read `targets[i].Label`, defaulting to `""` out of range. -/
def labelAt (ts : List TargetItem) (i : Nat) : List Char :=
  ((ts.getD i ⟨[], false⟩).label)

/-- Write `targets[i].Selected = b` (no-op out of range). -/
def setSel (ts : List TargetItem) (i : Nat) (b : Bool) : List TargetItem :=
  match ts[i]? with
  | some t => ts.set i { t with selected := b }
  | none => ts

/-- `selectAllOnly` (src/main.go:678-685). -/
def selectAllOnly (ts : List TargetItem) : List TargetItem :=
  let cleared := ts.map fun t => { t with selected := false }
  if 0 < ts.length then setSel cleared 0 true else cleared

/-- `toggleSelection` (src/main.go:663-676). -/
def toggleSelection (ts : List TargetItem) (index : Nat) : List TargetItem :=
  if index = 0 then
    if selAt ts 0 = false then selectAllOnly ts
    else setSel ts 0 false
  else
    let ts1 := if selAt ts 0 = true then setSel ts 0 false else ts
    setSel ts1 index (! selAt ts1 index)

/-- `hasSelection` (src/main.go:687-694). -/
def hasSelection (ts : List TargetItem) : Bool :=
  ts.any (·.selected)

/-- `selectedTargets` (src/main.go:696-707). -/
def selectedTargets (ts : List TargetItem) : List (List Char) :=
  if ts.length = 0 ∨ selAt ts 0 = true then []
  else ((ts.drop 1).filter (·.selected)).map (·.label)

/-- The argument-list assembly in `main` (src/main.go:762-766). -/
def buildArgs (action : List Char) (ts : List TargetItem) : List (List Char) :=
  action :: (selectedTargets ts).map (fun t => "-target=".toList ++ t)

/-- `actions` (src/main.go:712). -/
def actions : List (List Char) := ["plan".toList, "apply".toList]

/-- `step` (src/main.go:18-23). -/
inductive Step where
  | targets
  | action
deriving DecidableEq

/-- `model` (src/main.go:30-43). -/
structure Model where
  step : Step
  cursor : Nat
  actionCursor : Nat
  targets : List TargetItem
  action : List Char
  note : List Char
  width : Int
  height : Int
  filter : List Char
  filtered : List Nat
  targetOffset : Int
  actionOffset : Int
deriving DecidableEq

/-- The note text set by the empty-selection confirm (src/main.go:109). -/
def noSelectionNote : List Char :=
  "Select at least one target (or 'all') with Space.".toList

/-- `currentWidth` (src/main.go:298-307).  The live-terminal fallback
(`term.GetSize`) is modelled as its error path, `0`; claims about geometry
quantify over models with an explicit positive size, where the fallback is
never consulted. -/
def currentWidth (m : Model) : Int :=
  if 0 < m.width then m.width else 0

/-- `currentHeight` (src/main.go:309-318); terminal fallback modelled as 0
as in `currentWidth`. -/
def currentHeight (m : Model) : Int :=
  if 0 < m.height then m.height else 0

/-- `innerWidth` (src/main.go:290-296). -/
def innerWidth (m : Model) : Int :=
  let frameWidth := currentWidth m
  if frameWidth ≤ 0 then 0 else frameWidth

/-- `rebuildFilter` (src/main.go:320-345). -/
def rebuildFilter (m : Model) : Model :=
  if m.filter = [] then { m with filtered := [] }
  else
    let query := m.filter.map goToLower
    let filtered := (List.range m.targets.length).filter
      (fun i => fuzzyMatch ((labelAt m.targets i).map goToLower) query)
    if filtered = [] then { m with filtered := [], cursor := 0 }
    else if filtered.contains m.cursor then { m with filtered := filtered }
    else { m with filtered := filtered, cursor := filtered.headD 0 }

/-- `targetIndexes` (src/main.go:347-356). -/
def targetIndexes (m : Model) : List Nat :=
  if m.filtered = [] then List.range m.targets.length
  else m.filtered

/-- `moveTargetCursor` (src/main.go:358-383). -/
def moveTargetCursor (m : Model) (delta : Int) : Model :=
  let indexes := targetIndexes m
  if indexes = [] then m
  else
    let pos : Nat := if indexes.contains m.cursor then indexes.indexOf m.cursor else 0
    let next : Int := (pos : Int) + delta
    let next := if next < 0 then 0 else next
    let next := if (indexes.length : Int) ≤ next then (indexes.length : Int) - 1 else next
    { m with cursor := indexes.getD next.toNat 0 }

/-- `targetLabelWidth` (src/main.go:385-393); the prefix `"> [ ] "` is 6
runes wide. -/
def targetLabelWidth (inner : Int) : Int :=
  let prefixLen : Int := ("> [ ] ".toList.length : Int)
  let labelWidth := inner - prefixLen
  if labelWidth < 1 then 1 else labelWidth

/-- The scanning loop of `targetCursorLine` (src/main.go:395-410). -/
def targetCursorLineAux (m : Model) (labelWidth : Int) :
    List Nat → Nat → Option (Nat × Nat)
  | [], _ => none
  | i :: rest, line =>
    let lines := wrapLines (labelAt m.targets i) labelWidth
    if i = m.cursor then
      if lines.length = 0 then some (line, 1) else some (line, lines.length)
    else targetCursorLineAux m labelWidth rest (line + lines.length)

/-- `targetCursorLine` (src/main.go:395-410): first display line of the
cursor's row and the number of display lines it occupies; `(0, 1)` when the
cursor is not among `indexes`. -/
def targetCursorLine (m : Model) (inner : Int) (indexes : List Nat) : Nat × Nat :=
  (targetCursorLineAux m (targetLabelWidth inner) indexes 0).getD (0, 1)

/-- `targetTotalLines` (src/main.go:412-419). -/
def targetTotalLines (m : Model) (inner : Int) (indexes : List Nat) : Nat :=
  (indexes.map fun i =>
    (wrapLines (labelAt m.targets i) (targetLabelWidth inner)).length).sum

/-- `targetVisibleRows` (src/main.go:421-443). -/
def targetVisibleRows (m : Model) (inner height : Int) : Int × Bool :=
  if height ≤ 0 then (0, false)
  else
    let headerLines : Int := 2
    let filterLines : Int := (wrapLines ("FILTER: ".toList ++ m.filter) inner).length
    let blank : Int := 1
    let showNote := ! m.note.isEmpty
    let noteLines : Int :=
      if showNote then 1 + (wrapLines m.note inner).length else 0
    let available := height - headerLines - filterLines - blank - noteLines
    let p : Int × Bool :=
      if available < 1 ∧ showNote = true then
        (height - headerLines - filterLines - blank, false)
      else (available, showNote)
    let available := if p.1 < 1 then 1 else p.1
    (available, p.2)

/-- `ensureTargetVisible` (src/main.go:445-476). -/
def ensureTargetVisible (m : Model) : Model :=
  let inner := innerWidth m
  let height := currentHeight m
  if height ≤ 0 then m
  else
    let indexes := targetIndexes m
    let total : Int := (targetTotalLines m inner indexes : Int)
    let visible := (targetVisibleRows m inner height).1
    if total ≤ 0 ∨ visible ≤ 0 then { m with targetOffset := 0 }
    else
      let maxOffset := total - visible
      let maxOffset := if maxOffset < 0 then 0 else maxOffset
      let off := if maxOffset < m.targetOffset then maxOffset else m.targetOffset
      let cursorLine : Int := ((targetCursorLine m inner indexes).1 : Int)
      if cursorLine < off then { m with targetOffset := cursorLine }
      else if off + visible ≤ cursorLine then
        let o := cursorLine - visible + 1
        { m with targetOffset := if o < 0 then 0 else o }
      else { m with targetOffset := off }

/-- `actionLabelWidth` (src/main.go:478-486); the prefix `"> "` is 2 runes. -/
def actionLabelWidth (inner : Int) : Int :=
  let prefixLen : Int := ("> ".toList.length : Int)
  let labelWidth := inner - prefixLen
  if labelWidth < 1 then 1 else labelWidth

/-- The scanning loop of `actionCursorLine` (src/main.go:488-502). -/
def actionCursorLineAux (cursor : Nat) (labelWidth : Int) :
    List (List Char) → Nat → Nat → Option Nat
  | [], _, _ => none
  | item :: rest, i, line =>
    let lines := wrapLines item labelWidth
    if i = cursor then some line
    else actionCursorLineAux cursor labelWidth rest (i + 1) (line + lines.length)

/-- `actionCursorLine` (src/main.go:488-502). -/
def actionCursorLine (m : Model) (inner : Int) : Nat :=
  (actionCursorLineAux m.actionCursor (actionLabelWidth inner) actions 0 0).getD 0

/-- `actionTotalLines` (src/main.go:504-511). -/
def actionTotalLines (inner : Int) : Nat :=
  (actions.map fun item => (wrapLines item (actionLabelWidth inner)).length).sum

/-- `actionVisibleRows` (src/main.go:513-523). -/
def actionVisibleRows (height : Int) : Int :=
  if height ≤ 0 then 0
  else
    let headerLines : Int := 2
    let available := height - headerLines
    if available < 1 then 1 else available

/-- `ensureActionVisible` (src/main.go:525-555). -/
def ensureActionVisible (m : Model) : Model :=
  let inner := innerWidth m
  let height := currentHeight m
  if height ≤ 0 then m
  else
    let total : Int := (actionTotalLines inner : Int)
    let visible := actionVisibleRows height
    if total ≤ 0 ∨ visible ≤ 0 then { m with actionOffset := 0 }
    else
      let maxOffset := total - visible
      let maxOffset := if maxOffset < 0 then 0 else maxOffset
      let off := if maxOffset < m.actionOffset then maxOffset else m.actionOffset
      let cursorLine : Int := (actionCursorLine m inner : Int)
      if cursorLine < off then { m with actionOffset := cursorLine }
      else if off + visible ≤ cursorLine then
        let o := cursorLine - visible + 1
        { m with actionOffset := if o < 0 then 0 else o }
      else { m with actionOffset := off }

/-- The bubbletea key kinds the wizard distinguishes: rune input plus the
named special keys that appear in the handlers' switch cases. -/
inductive KeyType where
  | runes
  | space
  | enter
  | backspace
  | up
  | down
  | ctrlC
deriving DecidableEq

/-- A `tea.KeyMsg`: a key kind, its runes (non-empty only for rune input
and space), and the alt modifier. -/
structure KeyMsg where
  type : KeyType
  runes : List Char
  alt : Bool
deriving DecidableEq

/-- The name bubbletea's `keyNames` table assigns to a key kind (for
`KeyType.runes` the runes themselves). -/
def keyBase (k : KeyMsg) : List Char :=
  match k.type with
  | KeyType.runes => k.runes
  | KeyType.space => " ".toList
  | KeyType.enter => "enter".toList
  | KeyType.backspace => "backspace".toList
  | KeyType.up => "up".toList
  | KeyType.down => "down".toList
  | KeyType.ctrlC => "ctrl+c".toList

/-- `tea.KeyMsg.String()`: the key name, with an `"alt+"` marker when the
alt modifier is held. -/
def keyString (k : KeyMsg) : List Char :=
  (if k.alt then "alt+".toList else []) ++ keyBase k

/-- A `tea.Msg` the wizard reacts to: a key press or a terminal resize. -/
inductive Msg where
  | key (k : KeyMsg)
  | windowSize (w h : Int)
deriving DecidableEq

/-- `updateTargets` (src/main.go:96-131).  The `Bool` result models whether
the returned command is `tea.Quit` (always `false` here).  The `enter`
branch is handled first: both of its paths run `ensureTargetVisible` and
return, one before and one after the switch; every other branch falls
through to the trailing `ensureTargetVisible`. -/
def updateTargets (m : Model) (k : KeyMsg) : Model × Bool :=
  let s := keyString k
  if s = "enter".toList then
    if hasSelection m.targets = false then
      (ensureTargetVisible { m with note := noSelectionNote }, false)
    else
      (ensureTargetVisible
        { m with note := [], step := Step.action, cursor := 0,
                 actionCursor := 0, actionOffset := 0 }, false)
  else
    let m2 :=
      if s = "up".toList ∨ s = "k".toList then moveTargetCursor m (-1)
      else if s = "down".toList ∨ s = "j".toList then moveTargetCursor m 1
      else if s = " ".toList then
        let m3 := { m with targets := toggleSelection m.targets m.cursor }
        if hasSelection m3.targets = true ∧ m3.note ≠ [] then { m3 with note := [] }
        else m3
      else if s = "backspace".toList then
        if 0 < m.filter.length then
          rebuildFilter { m with filter := m.filter.dropLast }
        else m
      else
        if k.type = KeyType.runes ∧ 0 < k.runes.length then
          rebuildFilter { m with filter := m.filter ++ k.runes }
        else m
    (ensureTargetVisible m2, false)

/-- `updateAction` (src/main.go:133-149); the `enter` branch quits without
running `ensureActionVisible`. -/
def updateAction (m : Model) (k : KeyMsg) : Model × Bool :=
  let s := keyString k
  if s = "enter".toList then
    ({ m with action := actions.getD m.actionCursor [] }, true)
  else
    let m2 :=
      if s = "up".toList ∨ s = "k".toList then
        if 0 < m.actionCursor then { m with actionCursor := m.actionCursor - 1 }
        else m
      else if s = "down".toList ∨ s = "j".toList then
        if m.actionCursor + 1 < actions.length then
          { m with actionCursor := m.actionCursor + 1 }
        else m
      else m
    (ensureActionVisible m2, false)

/-- `Update` (src/main.go:69-94). -/
def update (m : Model) (msg : Msg) : Model × Bool :=
  match msg with
  | Msg.key k =>
    if keyString k = "ctrl+c".toList ∨ keyString k = "q".toList then (m, true)
    else
      match m.step with
      | Step.targets => updateTargets m k
      | Step.action => updateAction m k
  | Msg.windowSize w h =>
    let m := { m with width := w, height := h }
    match m.step with
    | Step.targets => (ensureTargetVisible m, false)
    | Step.action => (ensureActionVisible m, false)

/-- The initial model built in `main` (src/main.go:742-746); all fields not
set there are Go zero values. -/
def initModel (ts : List TargetItem) : Model :=
  { step := Step.targets, cursor := 0, actionCursor := 0, targets := ts,
    action := [], note := [], width := 0, height := 0, filter := [],
    filtered := [], targetOffset := 0, actionOffset := 0 }

/-- The interactive loop: feed messages one at a time; a `tea.Quit` command
ends the loop and discards the remaining messages. -/
def runMsgs (m : Model) : List Msg → Model
  | [] => m
  | msg :: rest =>
    let r := update m msg
    if r.2 then r.1 else runMsgs r.1 rest

/-! ### Lemmas about the label wrapper -/

theorem splitOnNl_ne_nil (t : List Char) : splitOnNl t ≠ [] := by
  cases t with
  | nil => simp [splitOnNl]
  | cons c rest =>
    simp only [splitOnNl]
    split
    · simp
    · split <;> simp

theorem wrapOneFuel_ne_nil (width fuel : Nat) (line : List Char) :
    wrapOneFuel width fuel line ≠ [] := by
  cases fuel with
  | zero => simp [wrapOneFuel]
  | succ n =>
    simp only [wrapOneFuel]
    split <;> simp

theorem wrapOne_ne_nil (width : Nat) (line : List Char) :
    wrapOne width line ≠ [] := wrapOneFuel_ne_nil _ _ _

theorem wrapOneFuel_flatten (width fuel : Nat) (line : List Char) :
    (wrapOneFuel width fuel line).flatten = line := by
  induction fuel generalizing line with
  | zero => simp [wrapOneFuel]
  | succ n ih =>
    simp only [wrapOneFuel]
    split
    · simp [ih]
    · simp

theorem wrapOne_flatten (width : Nat) (line : List Char) :
    (wrapOne width line).flatten = line := wrapOneFuel_flatten _ _ _

theorem wrapOneFuel_length_le (width fuel : Nat) (line : List Char)
    (hw : 1 ≤ width) (hfuel : line.length ≤ fuel) :
    ∀ s ∈ wrapOneFuel width fuel line, s.length ≤ width := by
  induction fuel generalizing line with
  | zero =>
    intro s hs
    have : line = [] := List.length_eq_zero.mp (Nat.le_zero.mp hfuel)
    subst this
    simp [wrapOneFuel] at hs
    simp [hs]
  | succ n ih =>
    intro s hs
    simp only [wrapOneFuel] at hs
    split at hs
    · rcases List.mem_cons.mp hs with h | h
      · subst h
        simp
      · refine ih (line.drop width) ?_ s h
        simp only [List.length_drop]
        omega
    · rename_i hcond
      simp at hs
      subst hs
      omega

theorem wrapOne_length_le (width : Nat) (line : List Char) (hw : 1 ≤ width) :
    ∀ s ∈ wrapOne width line, s.length ≤ width :=
  wrapOneFuel_length_le _ _ _ hw (Nat.le_refl _)

theorem wrapLines_ne_nil (t : List Char) (w : Int) : wrapLines t w ≠ [] := by
  unfold wrapLines
  split
  · exact splitOnNl_ne_nil t
  · rcases hs : splitOnNl t with _ | ⟨h, rest⟩
    · exact absurd hs (splitOnNl_ne_nil t)
    · simp only [List.flatMap_cons]
      intro hcontra
      rcases List.append_eq_nil.mp hcontra with ⟨h1, _⟩
      exact wrapOne_ne_nil _ _ h1

/-! ### C8 / C9 -/

/-- C8: for width `w ≥ 1`, the wrapper produces a non-empty sequence of
lines, every line has at most `w` runes, and concatenating the lines
produced for each newline-separated sub-line reconstructs that sub-line
exactly. -/
theorem C8_wrap_sound (text : List Char) (w : Int) (hw : 1 ≤ w) :
    wrapLines text w ≠ [] ∧
    (∀ l ∈ wrapLines text w, (l.length : Int) ≤ w) ∧
    (∀ s ∈ splitOnNl text, (wrapOne w.toNat s).flatten = s) := by
  refine ⟨wrapLines_ne_nil text w, ?_, fun s _ => wrapOne_flatten _ s⟩
  intro l hl
  have hw0 : ¬ (w ≤ 0) := by omega
  unfold wrapLines at hl
  rw [if_neg hw0] at hl
  rcases List.mem_flatMap.mp hl with ⟨s, _, hmem⟩
  have hle : l.length ≤ w.toNat :=
    wrapOne_length_le w.toNat s (by omega) l hmem
  omega

theorem C8_wrap_sound_witness :
    wrapLines "ab\ncdef".toList 3 ≠ [] ∧
    (∀ l ∈ wrapLines "ab\ncdef".toList 3, (l.length : Int) ≤ 3) ∧
    (∀ s ∈ splitOnNl "ab\ncdef".toList, (wrapOne (Int.toNat 3) s).flatten = s) :=
  C8_wrap_sound "ab\ncdef".toList 3 (by decide)

/-- C9 counterexample: at width `0 < 1` the wrapper does not clamp the
width to 1 — the line `"ab"` is kept whole, so a produced line has 2 runes,
not at most one. -/
theorem C9_counterexample :
    wrapLines "ab".toList 0 = ["ab".toList] ∧
    ¬ (∀ l ∈ wrapLines "ab".toList 0, l.length ≤ 1) := by
  constructor
  · rfl
  · intro h
    have := h "ab".toList (by rw [show wrapLines "ab".toList 0 = ["ab".toList] from rfl]; simp)
    simp at this

/-- C9 (amended): when the wrapper is called with width `w < 1` it does not
clamp the width; it returns the newline-split sub-lines whole, and the
output is still finite and non-empty for every input. -/
theorem C9_amended (text : List Char) (w : Int) (hw : w < 1) :
    wrapLines text w = splitOnNl text ∧ wrapLines text w ≠ [] := by
  have : w ≤ 0 := by omega
  exact ⟨by simp [wrapLines, this], wrapLines_ne_nil text w⟩

theorem C9_amended_witness :
    wrapLines "ab".toList (-2) = splitOnNl "ab".toList ∧
    wrapLines "ab".toList (-2) ≠ [] :=
  C9_amended "ab".toList (-2) (by decide)

/-! ### Lemmas about the fuzzy matcher -/

theorem scanFor_eq_some {α : Type} [DecidableEq α] {t rest : List α} {r : α}
    (h : scanFor t r = some rest) : ∃ pre, t = pre ++ r :: rest := by
  induction t generalizing rest with
  | nil => simp [scanFor] at h
  | cons b bs ih =>
    simp only [scanFor] at h
    split at h
    · rename_i hb
      subst hb
      have hbs : rest = bs := by
        have := Option.some.inj h
        exact this.symm
      exact ⟨[], by simp [hbs]⟩
    · rcases ih h with ⟨pre, hpre⟩
      exact ⟨b :: pre, by simp [hpre]⟩

theorem scanFor_of_cons_sublist {α : Type} [DecidableEq α] {r : α}
    {qs t : List α} (h : List.Sublist (r :: qs) t) :
    ∃ rest, scanFor t r = some rest ∧ List.Sublist qs rest := by
  induction t with
  | nil => simp at h
  | cons b bs ih =>
    by_cases hb : b = r
    · subst hb
      refine ⟨bs, by simp [scanFor], ?_⟩
      exact (List.cons_sublist_cons.mp h)
    · have h' : List.Sublist (r :: qs) bs := by
        cases h with
        | cons _ htail => exact htail
        | cons₂ _ _ => exact absurd rfl hb
      rcases ih h' with ⟨rest, hscan, hsub⟩
      exact ⟨rest, by simp [scanFor, hb, hscan], hsub⟩

theorem subMatch_iff {α : Type} [DecidableEq α] (t q : List α) :
    subMatch t q = true ↔ List.Sublist q t := by
  induction q generalizing t with
  | nil => simp [subMatch, List.nil_sublist]
  | cons r qs ih =>
    constructor
    · intro h
      simp only [subMatch] at h
      rcases hscan : scanFor t r with _ | rest
      · rw [hscan] at h; simp at h
      · rw [hscan] at h
        rcases scanFor_eq_some hscan with ⟨pre, hpre⟩
        subst hpre
        have hqs : List.Sublist qs rest := (ih rest).mp h
        exact List.Sublist.trans (List.cons_sublist_cons.mpr hqs)
          (List.sublist_append_right pre _)
    · intro h
      rcases scanFor_of_cons_sublist h with ⟨rest, hscan, hsub⟩
      simp only [subMatch, hscan]
      exact (ih rest).mpr hsub

theorem fuzzyMatchBytes_eq_subMatch (bytes : List Nat) (q : List Char) :
    fuzzyMatchBytes bytes q = subMatch bytes (q.map Char.toNat) := by
  induction q generalizing bytes with
  | nil => rfl
  | cons r qs ih =>
    simp only [fuzzyMatchBytes, List.map_cons, subMatch]
    rcases hscan : scanFor bytes r.toNat with _ | rest <;> simp [hscan, ih]

theorem goBytes_ascii {t : List Char} (ht : ∀ c ∈ t, c.toNat < 128) :
    goBytes t = t.map Char.toNat := by
  induction t with
  | nil => rfl
  | cons c cs ih =>
    have hc : c.toNat < 128 := ht c (List.mem_cons_self _ _)
    have hcs : ∀ x ∈ cs, x.toNat < 128 := fun x hx => ht x (List.mem_cons_of_mem _ hx)
    simp only [goBytes, List.map_cons, List.flatten_cons] at *
    rw [ih hcs]
    simp [utf8EncodeChar, hc]

theorem char_toNat_injective : Function.Injective Char.toNat := by
  intro a b h
  exact Char.eq_of_val_eq (UInt32.toNat.inj h)

theorem map_toNat_sublist_iff (q t : List Char) :
    List.Sublist (q.map Char.toNat) (t.map Char.toNat) ↔ List.Sublist q t := by
  constructor
  · intro h
    rcases List.sublist_map_iff.mp h with ⟨l', hl', heq⟩
    have : q = l' := List.map_injective_iff.mpr char_toNat_injective heq
    exact this ▸ hl'
  · exact fun h => h.map Char.toNat

/-! ### C3 -/

/-- C3 counterexample: the matcher compares query code points against
individual UTF-8 *bytes* of the text, so a non-ASCII character never
matches itself — `fuzzyMatch "é" "é"` is `false` even though `"é"` is
trivially an ordered subsequence of `"é"`. -/
theorem C3_counterexample :
    fuzzyMatch ['é'] ['é'] = false ∧ List.Sublist (['é'] : List Char) ['é'] :=
  ⟨by decide, List.Sublist.refl _⟩

/-- C3 (amended): `fuzzyMatch t "" = true` for every text, and for text
made of ASCII characters (code points below 128) `fuzzyMatch t q` returns
`true` iff the characters of `q` appear in `t` in the same relative order,
not necessarily contiguously (lower-casing being the caller's
responsibility).  For non-ASCII text the byte-versus-rune comparison makes
the equivalence fail. -/
theorem C3_amended (t q : List Char) (ht : ∀ c ∈ t, c.toNat < 128) :
    fuzzyMatch t [] = true ∧ (fuzzyMatch t q = true ↔ List.Sublist q t) := by
  refine ⟨rfl, ?_⟩
  rcases hq0 : q with _ | ⟨c, cs⟩
  · simp [fuzzyMatch, List.nil_sublist]
  · rw [← hq0]
    have hne : q.isEmpty = false := by simp [hq0]
    rw [fuzzyMatch, hne]
    simp only [Bool.false_eq_true, if_false]
    rw [goBytes_ascii ht, fuzzyMatchBytes_eq_subMatch, subMatch_iff,
      map_toNat_sublist_iff]

theorem C3_amended_witness :
    (fuzzyMatch "target_all_prod".toList [] = true ∧
      (fuzzyMatch "target_all_prod".toList "tap".toList = true ↔
        List.Sublist "tap".toList "target_all_prod".toList)) ∧
    (fuzzyMatch "target_all_prod".toList [] = true ∧
      (fuzzyMatch "target_all_prod".toList "pat".toList = true ↔
        List.Sublist "pat".toList "target_all_prod".toList)) :=
  ⟨C3_amended "target_all_prod".toList "tap".toList (by decide),
   C3_amended "target_all_prod".toList "pat".toList (by decide)⟩

/-! ### Lemmas about the toggle logic -/

theorem selAt_eq_getElem? (ts : List TargetItem) (i : Nat) :
    selAt ts i = ((ts[i]?).map (·.selected)).getD false := by
  simp only [selAt, List.getD_eq_getElem?_getD]
  cases ts[i]? <;> rfl

theorem selAt_setSel_of_ne (ts : List TargetItem) {i j : Nat} (b : Bool)
    (h : i ≠ j) : selAt (setSel ts i b) j = selAt ts j := by
  unfold setSel
  cases hts : ts[i]? with
  | none => rfl
  | some t => simp [selAt_eq_getElem?, List.getElem?_set_ne h]

theorem selAt_setSel_self (ts : List TargetItem) {i : Nat} (b : Bool)
    (h : i < ts.length) : selAt (setSel ts i b) i = b := by
  unfold setSel
  rw [List.getElem?_eq_getElem h]
  simp [selAt_eq_getElem?, List.getElem?_set_self (by simpa using h)]

theorem selAt_setSel_zero_false (ts : List TargetItem) :
    selAt (setSel ts 0 false) 0 = false := by
  by_cases h : 0 < ts.length
  · exact selAt_setSel_self ts false h
  · have : ts = [] := List.length_eq_zero.mp (by omega)
    subst this
    rfl

theorem selAt_selectAllOnly_pos (ts : List TargetItem) {i : Nat} (hi : 0 < i) :
    selAt (selectAllOnly ts) i = false := by
  unfold selectAllOnly
  have hmap : ∀ j, selAt (ts.map fun t => { t with selected := false }) j = false := by
    intro j
    simp only [selAt_eq_getElem?, List.getElem?_map]
    cases ts[j]? <;> rfl
  split
  · rw [selAt_setSel_of_ne _ _ (by omega)]
    exact hmap i
  · exact hmap i

/-- After any single `toggleSelection`, if the `all` row (index 0) is
selected then every other row is unselected. -/
theorem toggleSelection_exclusive (ts : List TargetItem) (index : Nat) :
    selAt (toggleSelection ts index) 0 = true →
    ∀ i, 0 < i → selAt (toggleSelection ts index) i = false := by
  unfold toggleSelection
  split
  · -- index = 0
    split
    · intro _ i hi
      exact selAt_selectAllOnly_pos ts hi
    · intro h0
      rw [selAt_setSel_zero_false ts] at h0
      exact absurd h0 (by simp)
  · -- index ≠ 0
    rename_i hidx
    intro h0
    exfalso
    rw [selAt_setSel_of_ne _ _ (Ne.symm (by omega))] at h0
    revert h0
    split
    · rw [selAt_setSel_zero_false ts]; simp
    · rename_i hsel
      simp at hsel
      rw [hsel]; simp

/-! ### C1 -/

/-- C1: starting from any target-row list and applying any finite sequence
of `toggleSelection` calls with valid indices, after every call (i.e. after
every non-empty initial segment of the call sequence) exactly one of the
following holds: (a) the `all` row (index 0) is selected and every other
row is unselected, or (b) the `all` row is unselected; in particular the
`all` row and some other row are never selected at the same time. -/
theorem C1_toggle_invariant (ts : List TargetItem) (ops p : List Nat)
    (_hts : 0 < ts.length) (_hops : ∀ o ∈ ops, o < ts.length)
    (hp : p ≠ []) (hpre : ∃ rest, p ++ rest = ops) :
    ((selAt (p.foldl toggleSelection ts) 0 = true ∧
        ∀ i, 0 < i → selAt (p.foldl toggleSelection ts) i = false) ∨
      selAt (p.foldl toggleSelection ts) 0 = false) ∧
    ¬(selAt (p.foldl toggleSelection ts) 0 = true ∧
        ∃ i, 0 < i ∧ selAt (p.foldl toggleSelection ts) i = true) := by
  rcases List.eq_nil_or_concat p with rfl | ⟨L, b, rfl⟩
  · exact absurd rfl hp
  · rw [List.concat_eq_append, List.foldl_append]
    simp only [List.foldl_cons, List.foldl_nil]
    set S := L.foldl toggleSelection ts with hS
    have hexcl := toggleSelection_exclusive S b
    constructor
    · by_cases hsel : selAt (toggleSelection S b) 0 = true
      · exact Or.inl ⟨hsel, hexcl hsel⟩
      · exact Or.inr (by simpa using hsel)
    · rintro ⟨h0, i, hi, htrue⟩
      rw [hexcl h0 i hi] at htrue
      exact absurd htrue (by simp)

theorem C1_toggle_invariant_witness :
    ((selAt ([1, 0].foldl toggleSelection
        [⟨"all".toList, false⟩, ⟨"module.net".toList, false⟩,
         ⟨"resource.aws_instance.web".toList, false⟩]) 0 = true ∧
      ∀ i, 0 < i → selAt ([1, 0].foldl toggleSelection
        [⟨"all".toList, false⟩, ⟨"module.net".toList, false⟩,
         ⟨"resource.aws_instance.web".toList, false⟩]) i = false) ∨
      selAt ([1, 0].foldl toggleSelection
        [⟨"all".toList, false⟩, ⟨"module.net".toList, false⟩,
         ⟨"resource.aws_instance.web".toList, false⟩]) 0 = false) ∧
    ¬(selAt ([1, 0].foldl toggleSelection
        [⟨"all".toList, false⟩, ⟨"module.net".toList, false⟩,
         ⟨"resource.aws_instance.web".toList, false⟩]) 0 = true ∧
      ∃ i, 0 < i ∧ selAt ([1, 0].foldl toggleSelection
        [⟨"all".toList, false⟩, ⟨"module.net".toList, false⟩,
         ⟨"resource.aws_instance.web".toList, false⟩]) i = true) :=
  C1_toggle_invariant
    [⟨"all".toList, false⟩, ⟨"module.net".toList, false⟩,
     ⟨"resource.aws_instance.web".toList, false⟩]
    [1, 0, 2] [1, 0] (by decide) (by decide) (by decide) ⟨[2], rfl⟩

/-! ### Frame lemmas: the `ensure*Visible` functions only move the
viewport offsets, and the other state operations leave the filter alone -/

theorem ensureTargetVisible_eq (m : Model) :
    ∃ off, ensureTargetVisible m = { m with targetOffset := off } := by
  unfold ensureTargetVisible
  dsimp only
  repeat' split
  all_goals first
    | exact ⟨m.targetOffset, rfl⟩
    | exact ⟨_, rfl⟩

theorem ensureTargetVisible_step (m : Model) :
    (ensureTargetVisible m).step = m.step := by
  obtain ⟨o, h⟩ := ensureTargetVisible_eq m; rw [h]

theorem ensureTargetVisible_note (m : Model) :
    (ensureTargetVisible m).note = m.note := by
  obtain ⟨o, h⟩ := ensureTargetVisible_eq m; rw [h]

theorem ensureTargetVisible_filter (m : Model) :
    (ensureTargetVisible m).filter = m.filter := by
  obtain ⟨o, h⟩ := ensureTargetVisible_eq m; rw [h]

theorem ensureActionVisible_eq (m : Model) :
    ∃ off, ensureActionVisible m = { m with actionOffset := off } := by
  unfold ensureActionVisible
  dsimp only
  repeat' split
  all_goals first
    | exact ⟨m.actionOffset, rfl⟩
    | exact ⟨_, rfl⟩

theorem ensureActionVisible_filter (m : Model) :
    (ensureActionVisible m).filter = m.filter := by
  obtain ⟨o, h⟩ := ensureActionVisible_eq m; rw [h]

theorem moveTargetCursor_filter (m : Model) (d : Int) :
    (moveTargetCursor m d).filter = m.filter := by
  unfold moveTargetCursor
  dsimp only
  split <;> rfl

theorem rebuildFilter_filter (m : Model) :
    (rebuildFilter m).filter = m.filter := by
  unfold rebuildFilter
  dsimp only
  repeat' split
  all_goals rfl

/-! ### C2 -/

/-- C2: the produced argument list is exactly the action followed by one
`-target=<label>` argument per selected non-`all` row in row order, and the
`-target` arguments are omitted entirely when the `all` row (index 0) is
selected; in particular the `apply` scenarios of the spec produce exactly
the stated lists. -/
theorem C2_args (action : List Char) (ts : List TargetItem) :
    (buildArgs action ts =
      if selAt ts 0 = true then [action]
      else action :: ((ts.drop 1).filter (fun t => t.selected)).map
        (fun t => "-target=".toList ++ t.label)) ∧
    buildArgs "apply".toList
      [⟨"all".toList, false⟩, ⟨"module.net".toList, true⟩,
       ⟨"resource.aws_instance.web".toList, true⟩] =
      ["apply".toList, "-target=module.net".toList,
       "-target=resource.aws_instance.web".toList] ∧
    buildArgs "apply".toList
      [⟨"all".toList, true⟩, ⟨"module.net".toList, false⟩,
       ⟨"resource.aws_instance.web".toList, false⟩] = ["apply".toList] := by
    refine ⟨?_, by decide, by decide⟩
    unfold buildArgs selectedTargets
    split
    · rename_i h
      rcases h with h | h
      · have : ts = [] := List.length_eq_zero.mp h
        subst this
        simp
      · simp [h]
    · rename_i h
      push_neg at h
      rw [if_neg (by simpa using h.2)]
      simp [List.map_map, Function.comp]

/-! ### C4 -/

/-- The Enter key event. -/
def enterKey : KeyMsg := ⟨KeyType.enter, [], false⟩

/-- C4: on the target step, pressing Enter with zero selected rows leaves
the wizard step unchanged and sets a non-empty note; pressing Enter with at
least one selected row (including just the `all` row) moves the wizard to
the action step and clears the note. -/
theorem C4_confirm (m : Model) (hstep : m.step = Step.targets) :
    (hasSelection m.targets = false →
      (update m (Msg.key enterKey)).1.step = Step.targets ∧
      (update m (Msg.key enterKey)).1.note ≠ []) ∧
    (hasSelection m.targets = true →
      (update m (Msg.key enterKey)).1.step = Step.action ∧
      (update m (Msg.key enterKey)).1.note = []) := by
  have hroute : update m (Msg.key enterKey) = updateTargets m enterKey := by
    unfold update
    dsimp only
    rw [if_neg (show ¬(keyString enterKey = "ctrl+c".toList ∨
        keyString enterKey = "q".toList) by decide), hstep]
  rw [hroute]
  unfold updateTargets
  dsimp only
  rw [if_pos (show keyString enterKey = "enter".toList by decide)]
  constructor
  · intro hsel
    rw [if_pos (by rw [hsel])]
    rw [ensureTargetVisible_step, ensureTargetVisible_note, hstep]
    refine ⟨rfl, ?_⟩
    show noSelectionNote ≠ []
    decide
  · intro hsel
    rw [if_neg (by rw [hsel]; simp)]
    rw [ensureTargetVisible_step, ensureTargetVisible_note]
    exact ⟨rfl, rfl⟩

theorem C4_confirm_witness :
    (hasSelection (initModel [⟨"all".toList, false⟩]).targets = false →
      (update (initModel [⟨"all".toList, false⟩]) (Msg.key enterKey)).1.step =
          Step.targets ∧
      (update (initModel [⟨"all".toList, false⟩]) (Msg.key enterKey)).1.note ≠ []) ∧
    (hasSelection (initModel [⟨"all".toList, false⟩]).targets = true →
      (update (initModel [⟨"all".toList, false⟩]) (Msg.key enterKey)).1.step =
          Step.action ∧
      (update (initModel [⟨"all".toList, false⟩]) (Msg.key enterKey)).1.note = []) :=
  C4_confirm (initModel [⟨"all".toList, false⟩]) rfl

/-! ### C6 -/

/-- C6: after `rebuildFilter` runs with a non-empty query, if the cursor's
row index is among the matched indices it is unchanged; if it is not among
the matched indices the cursor snaps to the first matched index; and if no
row matches at all the cursor is set to 0. -/
theorem C6_rebuild_cursor (m : Model) (hq : m.filter ≠ []) :
    ((rebuildFilter m).filtered = [] → (rebuildFilter m).cursor = 0) ∧
    (m.cursor ∈ (rebuildFilter m).filtered → (rebuildFilter m).cursor = m.cursor) ∧
    ((rebuildFilter m).filtered ≠ [] → m.cursor ∉ (rebuildFilter m).filtered →
      (rebuildFilter m).cursor = (rebuildFilter m).filtered.headD 0) := by
  unfold rebuildFilter
  rw [if_neg hq]
  dsimp only
  split
  · refine ⟨fun _ => rfl, ?_, ?_⟩
    · intro hmem
      simp at hmem
    · intro hne
      simp at hne
  · rename_i hnil
    split
    · rename_i hcont
      refine ⟨fun h => absurd h hnil, fun _ => rfl, ?_⟩
      intro _ hnmem
      exact absurd (show m.cursor ∈ _ by simpa using hcont) hnmem
    · rename_i hcont
      refine ⟨fun h => absurd h hnil, ?_, fun _ _ => rfl⟩
      intro hmem
      exact absurd hmem (by simpa using hcont)

theorem C6_rebuild_cursor_witness :
    ((rebuildFilter { initModel [⟨"all".toList, false⟩, ⟨"module.net".toList, false⟩]
        with filter := "net".toList }).filtered = [] →
      (rebuildFilter { initModel [⟨"all".toList, false⟩, ⟨"module.net".toList, false⟩]
        with filter := "net".toList }).cursor = 0) ∧
    ((initModel [⟨"all".toList, false⟩, ⟨"module.net".toList, false⟩]).cursor ∈
        (rebuildFilter { initModel [⟨"all".toList, false⟩, ⟨"module.net".toList, false⟩]
          with filter := "net".toList }).filtered →
      (rebuildFilter { initModel [⟨"all".toList, false⟩, ⟨"module.net".toList, false⟩]
        with filter := "net".toList }).cursor =
      ({ initModel [⟨"all".toList, false⟩, ⟨"module.net".toList, false⟩]
        with filter := "net".toList } : Model).cursor) ∧
    ((rebuildFilter { initModel [⟨"all".toList, false⟩, ⟨"module.net".toList, false⟩]
        with filter := "net".toList }).filtered ≠ [] →
      ({ initModel [⟨"all".toList, false⟩, ⟨"module.net".toList, false⟩]
        with filter := "net".toList } : Model).cursor ∉
        (rebuildFilter { initModel [⟨"all".toList, false⟩, ⟨"module.net".toList, false⟩]
          with filter := "net".toList }).filtered →
      (rebuildFilter { initModel [⟨"all".toList, false⟩, ⟨"module.net".toList, false⟩]
        with filter := "net".toList }).cursor =
      (rebuildFilter { initModel [⟨"all".toList, false⟩, ⟨"module.net".toList, false⟩]
        with filter := "net".toList }).filtered.headD 0) :=
  C6_rebuild_cursor
    { initModel [⟨"all".toList, false⟩, ⟨"module.net".toList, false⟩]
      with filter := "net".toList } (by decide)

/-! ### C7 -/

/-- C7: `moveTargetCursor` moves the cursor by `delta` positions within the
currently displayed (possibly filtered) ordering — from display position
`p` it lands on the row at display position `p + delta`, clamped at the
first and last displayed row with no wraparound — and the cursor always
lands on a displayed row; in particular, when a filter is active the
cursor lands in the matched index set. -/
theorem C7_move_cursor (m : Model) (delta : Int)
    (hmem : m.cursor ∈ targetIndexes m) :
    ((moveTargetCursor m delta).cursor =
      (targetIndexes m).getD
        (Int.toNat
          (if ((targetIndexes m).indexOf m.cursor : Int) + delta < 0 then 0
           else if ((targetIndexes m).length : Int) ≤
               ((targetIndexes m).indexOf m.cursor : Int) + delta then
             ((targetIndexes m).length : Int) - 1
           else ((targetIndexes m).indexOf m.cursor : Int) + delta)) 0) ∧
    (moveTargetCursor m delta).cursor ∈ targetIndexes m ∧
    (m.filtered ≠ [] → (moveTargetCursor m delta).cursor ∈ m.filtered) := by
  have hne : targetIndexes m ≠ [] := List.ne_nil_of_mem hmem
  have hlen : 0 < (targetIndexes m).length := List.length_pos.mpr hne
  have hcont : (targetIndexes m).contains m.cursor = true := by
    simpa [List.elem_iff] using hmem
  have hcur : (moveTargetCursor m delta).cursor =
      (targetIndexes m).getD
        (Int.toNat
          (if ((targetIndexes m).indexOf m.cursor : Int) + delta < 0 then 0
           else if ((targetIndexes m).length : Int) ≤
               ((targetIndexes m).indexOf m.cursor : Int) + delta then
             ((targetIndexes m).length : Int) - 1
           else ((targetIndexes m).indexOf m.cursor : Int) + delta)) 0 := by
    unfold moveTargetCursor
    rw [if_neg hne]
    dsimp only
    rw [if_pos hcont]
    by_cases h1 : ((targetIndexes m).indexOf m.cursor : Int) + delta < 0
    · rw [if_pos h1, if_pos h1]
      rw [if_neg (by omega)]
    · rw [if_neg h1, if_neg h1]
  refine ⟨hcur, ?_, ?_⟩
  · rw [hcur]
    have hidx : (targetIndexes m).indexOf m.cursor < (targetIndexes m).length :=
      List.indexOf_lt_length.mpr hmem
    have hq : (Int.toNat
        (if ((targetIndexes m).indexOf m.cursor : Int) + delta < 0 then 0
         else if ((targetIndexes m).length : Int) ≤
             ((targetIndexes m).indexOf m.cursor : Int) + delta then
           ((targetIndexes m).length : Int) - 1
         else ((targetIndexes m).indexOf m.cursor : Int) + delta)) <
        (targetIndexes m).length := by
      split
      · omega
      · split <;> omega
    rw [List.getD_eq_getElem?_getD, List.getElem?_eq_getElem hq]
    exact List.getElem_mem hq
  · intro hf
    have h2 : (moveTargetCursor m delta).cursor ∈ targetIndexes m := by
      rw [hcur]
      have hidx : (targetIndexes m).indexOf m.cursor < (targetIndexes m).length :=
        List.indexOf_lt_length.mpr hmem
      have hq : (Int.toNat
          (if ((targetIndexes m).indexOf m.cursor : Int) + delta < 0 then 0
           else if ((targetIndexes m).length : Int) ≤
               ((targetIndexes m).indexOf m.cursor : Int) + delta then
             ((targetIndexes m).length : Int) - 1
           else ((targetIndexes m).indexOf m.cursor : Int) + delta)) <
          (targetIndexes m).length := by
        split
        · omega
        · split <;> omega
      rw [List.getD_eq_getElem?_getD, List.getElem?_eq_getElem hq]
      exact List.getElem_mem hq
    rwa [show targetIndexes m = m.filtered from if_neg hf] at h2

theorem C7_move_cursor_witness :
    ((moveTargetCursor { initModel
        [⟨"all".toList, false⟩, ⟨"module.net".toList, false⟩,
         ⟨"resource.aws_instance.web".toList, false⟩] with filtered := [0, 2] } 1).cursor =
      (targetIndexes { initModel
        [⟨"all".toList, false⟩, ⟨"module.net".toList, false⟩,
         ⟨"resource.aws_instance.web".toList, false⟩] with filtered := [0, 2] }).getD
        (Int.toNat
          (if ((targetIndexes { initModel
              [⟨"all".toList, false⟩, ⟨"module.net".toList, false⟩,
               ⟨"resource.aws_instance.web".toList, false⟩] with
                filtered := [0, 2] }).indexOf 0 : Int) + 1 < 0 then 0
           else if ((targetIndexes { initModel
              [⟨"all".toList, false⟩, ⟨"module.net".toList, false⟩,
               ⟨"resource.aws_instance.web".toList, false⟩] with
                filtered := [0, 2] }).length : Int) ≤
               ((targetIndexes { initModel
              [⟨"all".toList, false⟩, ⟨"module.net".toList, false⟩,
               ⟨"resource.aws_instance.web".toList, false⟩] with
                filtered := [0, 2] }).indexOf 0 : Int) + 1 then
             ((targetIndexes { initModel
              [⟨"all".toList, false⟩, ⟨"module.net".toList, false⟩,
               ⟨"resource.aws_instance.web".toList, false⟩] with
                filtered := [0, 2] }).length : Int) - 1
           else ((targetIndexes { initModel
              [⟨"all".toList, false⟩, ⟨"module.net".toList, false⟩,
               ⟨"resource.aws_instance.web".toList, false⟩] with
                filtered := [0, 2] }).indexOf 0 : Int) + 1)) 0) ∧
    (moveTargetCursor { initModel
        [⟨"all".toList, false⟩, ⟨"module.net".toList, false⟩,
         ⟨"resource.aws_instance.web".toList, false⟩] with filtered := [0, 2] } 1).cursor ∈
      targetIndexes { initModel
        [⟨"all".toList, false⟩, ⟨"module.net".toList, false⟩,
         ⟨"resource.aws_instance.web".toList, false⟩] with filtered := [0, 2] } ∧
    (({ initModel
        [⟨"all".toList, false⟩, ⟨"module.net".toList, false⟩,
         ⟨"resource.aws_instance.web".toList, false⟩] with
          filtered := [0, 2] } : Model).filtered ≠ [] →
      (moveTargetCursor { initModel
        [⟨"all".toList, false⟩, ⟨"module.net".toList, false⟩,
         ⟨"resource.aws_instance.web".toList, false⟩] with filtered := [0, 2] } 1).cursor ∈
      ({ initModel
        [⟨"all".toList, false⟩, ⟨"module.net".toList, false⟩,
         ⟨"resource.aws_instance.web".toList, false⟩] with
          filtered := [0, 2] } : Model).filtered) :=
  C7_move_cursor { initModel
    [⟨"all".toList, false⟩, ⟨"module.net".toList, false⟩,
     ⟨"resource.aws_instance.web".toList, false⟩] with filtered := [0, 2] } 1
    (by decide)

/-! ### C5 -/

theorem targetVisibleRows_pos (m : Model) (inner height : Int)
    (hh : 0 < height) : 0 < (targetVisibleRows m inner height).1 := by
  unfold targetVisibleRows
  rw [if_neg (by omega)]
  dsimp only
  repeat' split
  all_goals try dsimp only
  all_goals omega

theorem targetIndexes_ne_nil (m : Model) (hts : m.targets ≠ []) :
    targetIndexes m ≠ [] := by
  unfold targetIndexes
  split
  · intro hcontra
    have hlen := congrArg List.length hcontra
    simp at hlen
    exact hts hlen
  · rename_i h
    exact h

theorem targetTotalLines_pos (m : Model) (inner : Int) (indexes : List Nat)
    (h : indexes ≠ []) : 0 < targetTotalLines m inner indexes := by
  rcases indexes with _ | ⟨i, rest⟩
  · exact absurd rfl h
  · unfold targetTotalLines
    simp only [List.map_cons, List.sum_cons]
    have hlen : 0 < (wrapLines (labelAt m.targets i) (targetLabelWidth inner)).length :=
      List.length_pos.mpr (wrapLines_ne_nil _ _)
    omega

/-- C5 (amended): after `ensureTargetVisible`, for any model with positive
height and a non-empty target list, the *first* display line of the
cursor's row lies inside the half-open window
`[targetOffset, targetOffset + visibleRows)`.  (The full wrapped range of
the row is not kept visible — see the counterexample — so the claim is
weakened from the row's whole display-line range to its first line.) -/
theorem C5_scroll_amended (m : Model) (hh : 0 < m.height) (hts : m.targets ≠ []) :
    (ensureTargetVisible m).targetOffset ≤
      ((targetCursorLine m (innerWidth m) (targetIndexes m)).1 : Int) ∧
    ((targetCursorLine m (innerWidth m) (targetIndexes m)).1 : Int) <
      (ensureTargetVisible m).targetOffset +
        (targetVisibleRows m (innerWidth m) (currentHeight m)).1 := by
  have hch : currentHeight m = m.height := by unfold currentHeight; rw [if_pos hh]
  have hvis : 0 < (targetVisibleRows m (innerWidth m) (currentHeight m)).1 :=
    targetVisibleRows_pos _ _ _ (by omega)
  have hidx : targetIndexes m ≠ [] := targetIndexes_ne_nil m hts
  have htot : 0 < targetTotalLines m (innerWidth m) (targetIndexes m) :=
    targetTotalLines_pos m _ _ hidx
  unfold ensureTargetVisible
  dsimp only
  rw [if_neg (by omega)]
  rw [if_neg (by omega)]
  split_ifs <;> dsimp only <;> omega

/-- The concrete model exhibiting the C5 violation: one 8-rune label
wrapped at label width 4 (2 display lines) with only 1 visible row. -/
def mC5 : Model :=
  { step := Step.targets, cursor := 0, actionCursor := 0,
    targets := [⟨"abcdefgh".toList, false⟩], action := [], note := [],
    width := 10, height := 5, filter := [], filtered := [],
    targetOffset := 0, actionOffset := 0 }

/-- C5 counterexample: in `mC5` the cursor's row occupies display lines 0
and 1 (first line 0, span 2), the viewport shows 1 row starting at offset
0 after `ensureTargetVisible`, so the row's last display line 1 is outside
`[targetOffset, targetOffset + visibleRows)` — the full display-line range
of the cursor's row is *not* a subset of the window. -/
theorem C5_scroll_counterexample :
    targetCursorLine mC5 (innerWidth mC5) (targetIndexes mC5) = (0, 2) ∧
    (targetVisibleRows mC5 (innerWidth mC5) (currentHeight mC5)).1 = 1 ∧
    (ensureTargetVisible mC5).targetOffset = 0 ∧
    ¬((1 : Int) < (ensureTargetVisible mC5).targetOffset +
        (targetVisibleRows mC5 (innerWidth mC5) (currentHeight mC5)).1) := by
  refine ⟨by decide, by decide, by decide, by decide⟩

theorem C5_scroll_amended_witness :
    (ensureTargetVisible mC5).targetOffset ≤
      ((targetCursorLine mC5 (innerWidth mC5) (targetIndexes mC5)).1 : Int) ∧
    ((targetCursorLine mC5 (innerWidth mC5) (targetIndexes mC5)).1 : Int) <
      (ensureTargetVisible mC5).targetOffset +
        (targetVisibleRows mC5 (innerWidth mC5) (currentHeight mC5)).1 :=
  C5_scroll_amended mC5 (by decide) (by decide)

/-! ### C10 -/

/-- A key event that cannot smuggle the letter `q` past the quit handler:
any rune event either contains no `q` at all, or is exactly the unmodified
single rune `q` (whose string form is `"q"`, caught by the quit case). -/
def benignKey (k : KeyMsg) : Prop :=
  k.type = KeyType.runes → ('q' ∉ k.runes ∨ (k.alt = false ∧ k.runes = ['q']))

theorem updateAction_filter (m : Model) (k : KeyMsg) :
    (updateAction m k).1.filter = m.filter := by
  unfold updateAction
  dsimp only
  repeat' split
  all_goals try rw [ensureActionVisible_filter]
  all_goals rfl

theorem updateTargets_filter_no_q (m : Model) (k : KeyMsg)
    (hm : 'q' ∉ m.filter) (hq : keyString k ≠ "q".toList) (hk : benignKey k) :
    'q' ∉ (updateTargets m k).1.filter := by
  unfold updateTargets
  dsimp only
  split
  · split
    · rw [ensureTargetVisible_filter]
      exact hm
    · rw [ensureTargetVisible_filter]
      exact hm
  · rw [ensureTargetVisible_filter]
    split
    · rw [moveTargetCursor_filter]
      exact hm
    · split
      · rw [moveTargetCursor_filter]
        exact hm
      · split
        · split
          · exact hm
          · exact hm
        · split
          · split
            · rw [rebuildFilter_filter]
              dsimp only
              intro hcontra
              exact hm (List.dropLast_subset _ hcontra)
            · exact hm
          · split
            · rename_i hrunes
              rw [rebuildFilter_filter]
              dsimp only
              rcases hk hrunes.1 with hno | ⟨halt, hq1⟩
              · intro hcontra
                rcases List.mem_append.mp hcontra with h | h
                · exact hm h
                · exact hno h
              · exfalso
                apply hq
                unfold keyString keyBase
                rw [halt, hrunes.1, hq1]
                rfl
            · exact hm

theorem update_filter_no_q (m : Model) (msg : Msg) (hm : 'q' ∉ m.filter)
    (hk : ∀ k, msg = Msg.key k → benignKey k) :
    'q' ∉ (update m msg).1.filter := by
  unfold update
  match msg with
  | Msg.key k =>
    dsimp only
    split
    · exact hm
    · rename_i hnq
      split
      · refine updateTargets_filter_no_q m k hm ?_ (hk k rfl)
        intro hcontra
        exact hnq (Or.inr hcontra)
      · rw [updateAction_filter]
        exact hm
  | Msg.windowSize w h =>
    dsimp only
    split
    · rw [ensureTargetVisible_filter]
      exact hm
    · rw [ensureActionVisible_filter]
      exact hm

theorem runMsgs_filter_no_q (m : Model) (msgs : List Msg) (hm : 'q' ∉ m.filter)
    (hmsgs : ∀ k, Msg.key k ∈ msgs → benignKey k) :
    'q' ∉ (runMsgs m msgs).filter := by
  induction msgs generalizing m with
  | nil => exact hm
  | cons msg rest ih =>
    unfold runMsgs
    dsimp only
    have h1 : 'q' ∉ (update m msg).1.filter :=
      update_filter_no_q m msg hm
        (fun k hk => hmsgs k (by rw [hk]; exact List.mem_cons_self _ _))
    split
    · exact h1
    · exact ih _ h1 (fun k hk => hmsgs k (List.mem_cons_of_mem _ hk))

/-- C10 counterexample: the key event alt+q (`KeyRunes` with runes `"q"`
and the alt modifier) has string form `"alt+q"`, so it is not caught by the
quit case, reaches the target step's filter-appending branch, and inserts
`q` into the filter — a reachable wizard state whose filter contains `q`. -/
theorem C10_counterexample :
    'q' ∈ (runMsgs (initModel [⟨"all".toList, false⟩])
      [Msg.key ⟨KeyType.runes, ['q'], true⟩]).filter := by decide

/-- C10 (amended): along any message sequence in which every rune key event
either contains no `q` among its runes or is exactly the unmodified single
rune `q` (which the top-level handler interprets as quit), the filter never
contains `q`.  Rune events whose string form differs from `"q"` while still
carrying the rune `q` — e.g. alt+q — do reach the filter branch, so the
unrestricted claim fails. -/
theorem C10_amended (ts : List TargetItem) (msgs : List Msg)
    (hmsgs : ∀ k, Msg.key k ∈ msgs → benignKey k) :
    'q' ∉ (runMsgs (initModel ts) msgs).filter :=
  runMsgs_filter_no_q _ _ (by simp [initModel]) hmsgs

theorem C10_amended_witness :
    'q' ∉ (runMsgs (initModel [⟨"all".toList, false⟩])
      [Msg.key ⟨KeyType.runes, ['a'], false⟩,
       Msg.key ⟨KeyType.runes, ['q'], false⟩]).filter :=
  C10_amended [⟨"all".toList, false⟩]
    [Msg.key ⟨KeyType.runes, ['a'], false⟩,
     Msg.key ⟨KeyType.runes, ['q'], false⟩]
    (by
      intro k hk
      simp only [List.mem_cons, List.not_mem_nil, or_false] at hk
      rcases hk with hk | hk <;>
        · have := Msg.key.inj hk
          subst this
          unfold benignKey
          decide)

end Tfz


